import Mathlib

/-!
Shallow embedding of the NSE shareholding-pattern pipeline
(`fetch_data_by_context_refs.py`, `xbr_data_extract.py`).

An XBRL document is modelled as the document-order sequence of its elements,
exactly the node stream the XPath `//*[local-name()=...]` scan walks.  Numeric
values are modelled as rationals (Python `float` arithmetic is IEEE-754; no
claim below depends on rounding, only on which categories receive which
values).
-/

/-- One XML element as seen by the scans: its namespace-stripped local tag
name, its (irrelevant to matching) namespace name, its `contextRef`
attribute (`none` when absent, as `attrib.get` returns `None`), and its text
content (`none` when the element has no text). -/
structure XmlElem where
  localName : String
  nsName : Option String
  contextRef : Option String
  text : Option String
deriving DecidableEq

/-- The one tag the pipeline cares about. -/
def shareholdingTag : String := "ShareholdingAsAPercentageOfTotalNumberOfShares"

/-- The XPath selection `//*[local-name()='ShareholdingAsAPercentageOfTotalNumberOfShares']`:
matching is by local name only, the namespace is ignored. -/
def matchesShareholding (e : XmlElem) : Bool := e.localName == shareholdingTag

/-- Decimal digit test. -/
def isDigitCh (c : Char) : Bool := '0' ≤ c && c ≤ '9'

/-- Value of a digit character. -/
def digitVal (c : Char) : Nat := c.toNat - '0'.toNat

/-- Reads a digit string as a natural number. -/
def natOfDigits (cs : List Char) : Nat := cs.foldl (fun a c => 10 * a + digitVal c) 0

/-- Unsigned part of Python `float()` on plain decimal literals, as an exact
numerator/denominator pair (the denominator a power of ten):
`digits`, `digits.digits`, `.digits` and `digits.` parse, anything else fails.
Exponent forms, `inf`/`nan`, underscores and surrounding whitespace are not
modelled; no claim depends on them. -/
def pyFloatCore (cs : List Char) : Option (Nat × Nat) :=
  let intPart := cs.takeWhile isDigitCh
  let rest := cs.dropWhile isDigitCh
  match rest with
  | [] => if intPart.isEmpty then none else some (natOfDigits intPart, 1)
  | '.' :: frac =>
    if frac.all isDigitCh then
      if intPart.isEmpty && frac.isEmpty then none
      else some (natOfDigits intPart * 10 ^ frac.length + natOfDigits frac, 10 ^ frac.length)
    else none
  | _ => none

/-- Python `float()` on a string: optional sign, then a decimal literal,
read as an exact rational.  A parse failure (`none`) models the `ValueError`
that `float` raises. -/
def pyFloat (s : String) : Option ℚ :=
  match s.data with
  | '+' :: cs => (pyFloatCore cs).map (fun p => (p.1 : ℚ) / (p.2 : ℚ))
  | '-' :: cs => (pyFloatCore cs).map (fun p => -((p.1 : ℚ) / (p.2 : ℚ)))
  | cs => (pyFloatCore cs).map (fun p => (p.1 : ℚ) / (p.2 : ℚ))

/-- Category membership table: category name paired with its set of
context-reference strings (`CATEGORY_CONTEXTS`).  Python dict keys are
unique; lemmas that need this take a `Nodup` hypothesis on the keys. -/
abbrev CategoryMembership := List (String × List String)

/-- Running totals: category name paired with its accumulated value. -/
abbrev Totals := List (String × ℚ)

/-- Association-list lookup of a category's total. -/
def lookupT (k : String) : Totals → Option ℚ
  | [] => none
  | (k0, v0) :: rest => if k0 = k then some v0 else lookupT k rest

/-- The update `totals[cat] += val` on the association list: add `v` to the
entry of key `k` (the first one; keys are unique in every use). -/
def updateKey (k : String) (v : ℚ) : Totals → Totals
  | [] => []
  | (k0, v0) :: rest =>
    if k0 = k then (k0, v0 + v) :: rest else (k0, v0) :: updateKey k v rest

/-- The inner loop of `fetch_data_from_xbrl` (lines 79-81): for every
category whose membership set contains the datum's context ref, add the
datum's value to that category's total. -/
def applyDatum (m : CategoryMembership) (ctx : String) (v : ℚ) (t : Totals) : Totals :=
  m.foldl (fun acc p => if ctx ∈ p.2 then updateKey p.1 v acc else acc) t

/-- The initialization `totals = {cat: 0.0 for cat in category_contexts}`
(line 70). -/
def initTotals (m : CategoryMembership) : Totals := m.map (fun p => (p.1, (0 : ℚ)))

/-- What the loop body of `fetch_data_from_xbrl` does with one element:
skip it, fail on it, or yield a (context_ref, value) datum. -/
inductive StepRes where
  | skip
  | bad
  | datum (ctx : String) (v : ℚ)
deriving DecidableEq

/-- The per-element guards of `fetch_data_from_xbrl` (lines 72-77): an
unmatched tag is never visited; a matched element whose `contextRef` is
absent or empty, or whose text is absent or empty, is skipped
(`if not ctx or not n.text: continue`); otherwise `float(n.text)` either
yields the datum or raises `ValueError` (`bad`). -/
def elemStep (e : XmlElem) : StepRes :=
  if matchesShareholding e then
    match e.contextRef, e.text with
    | some ctx, some txt =>
      if ctx = "" ∨ txt = "" then .skip
      else
        match pyFloat txt with
        | some v => .datum ctx v
        | none => .bad
    | _, _ => .skip
  else .skip

/-- The element scan of `fetch_data_from_xbrl` (lines 72-81): fold the
per-element step over the document; a `ValueError` escapes to the
`except Exception` handler, so the whole scan yields `none`. -/
def scanElems (m : CategoryMembership) : List XmlElem → Totals → Option Totals
  | [], t => some t
  | e :: rest, t =>
    match elemStep e with
    | .skip => scanElems m rest t
    | .bad => none
    | .datum ctx v => scanElems m rest (applyDatum m ctx v t)

/-- Function `fetch_data_from_xbrl` (lines 43-86), network fetch and XML
parse abstracted to the parsed element sequence: set every category to 0.0,
scan the matched elements, return the totals; `none` models the raised
exception. -/
def fetch_data_from_xbrl (m : CategoryMembership) (doc : List XmlElem) : Option Totals :=
  scanElems m doc (initTotals m)

/-- The stream of (context_ref, value) data the scan consumes, in document
order: one datum per matched element that has a non-empty context ref, a
non-empty text and a parseable value; a non-parseable non-empty text makes
the stream (like the scan) fail as a whole. -/
def extractData : List XmlElem → Option (List (String × ℚ))
  | [] => some []
  | e :: rest =>
    match elemStep e with
    | .skip => extractData rest
    | .bad => none
    | .datum ctx v => (extractData rest).map (fun l => (ctx, v) :: l)

/-- Looking up the updated key adds the value. -/
theorem lookupT_updateKey_self (k : String) (v : ℚ) (t : Totals) :
    lookupT k (updateKey k v t) = (lookupT k t).map (· + v) := by
  induction t with
  | nil => rfl
  | cons p rest ih =>
    obtain ⟨k0, v0⟩ := p
    by_cases h : k0 = k
    · simp [updateKey, lookupT, h]
    · simp [updateKey, lookupT, h, ih]

/-- Updating one key leaves every other key's value alone. -/
theorem lookupT_updateKey_other (k k' : String) (v : ℚ) (t : Totals) (h : k' ≠ k) :
    lookupT k' (updateKey k v t) = lookupT k' t := by
  induction t with
  | nil => rfl
  | cons p rest ih =>
    obtain ⟨k0, v0⟩ := p
    by_cases h0 : k0 = k
    · have hk2 : ¬(k = k') := fun hh => h hh.symm
      simp [updateKey, lookupT, h0, hk2]
    · by_cases h1 : k0 = k'
      · simp [updateKey, lookupT, h0, h1, h]
      · simp [updateKey, lookupT, h0, h1, ih]

/-- Updating a key's value never changes the key list. -/
theorem updateKey_keys (k : String) (v : ℚ) (t : Totals) :
    (updateKey k v t).map Prod.fst = t.map Prod.fst := by
  induction t with
  | nil => rfl
  | cons p rest ih =>
    obtain ⟨k0, v0⟩ := p
    by_cases h : k0 = k <;> simp [updateKey, h, ih]

theorem applyDatum_nil (ctx : String) (v : ℚ) (t : Totals) :
    applyDatum [] ctx v t = t := rfl

theorem applyDatum_cons (c : String) (s : List String) (m : CategoryMembership)
    (ctx : String) (v : ℚ) (t : Totals) :
    applyDatum ((c, s) :: m) ctx v t =
      applyDatum m ctx v (if ctx ∈ s then updateKey c v t else t) := by
  by_cases h : ctx ∈ s <;> simp [applyDatum, h]

/-- One aggregation step never changes the key list of the totals. -/
theorem applyDatum_keys (m : CategoryMembership) (ctx : String) (v : ℚ) :
    ∀ t : Totals, (applyDatum m ctx v t).map Prod.fst = t.map Prod.fst := by
  induction m with
  | nil => intro t; rfl
  | cons p m ih =>
    intro t
    obtain ⟨c, s⟩ := p
    rw [applyDatum_cons]
    by_cases h : ctx ∈ s
    · rw [if_pos h, ih, updateKey_keys]
    · rw [if_neg h, ih]

/-- A category none of whose table rows contain the context ref keeps its
total through one aggregation step. -/
theorem lookupT_applyDatum_notmem (m : CategoryMembership) (ctx : String) (v : ℚ)
    (cat : String) :
    (∀ s, (cat, s) ∈ m → ctx ∉ s) → ∀ t : Totals,
      lookupT cat (applyDatum m ctx v t) = lookupT cat t := by
  induction m with
  | nil => intro _ t; rfl
  | cons p m ih =>
    intro h t
    obtain ⟨c, s⟩ := p
    rw [applyDatum_cons]
    by_cases hs : ctx ∈ s
    · have hc : c ≠ cat := by
        intro hcc
        exact h s (by simp [hcc]) hs
      rw [if_pos hs, ih (fun s' hs' => h s' (List.mem_cons_of_mem _ hs')) _,
        lookupT_updateKey_other _ _ _ _ (Ne.symm hc)]
    · rw [if_neg hs, ih (fun s' hs' => h s' (List.mem_cons_of_mem _ hs')) _]

/-- A datum whose context ref is in no category's set leaves the totals
completely unchanged. -/
theorem applyDatum_id (m : CategoryMembership) (ctx : String) (v : ℚ) (t : Totals)
    (h : ∀ c s, (c, s) ∈ m → ctx ∉ s) :
    applyDatum m ctx v t = t := by
  induction m with
  | nil => rfl
  | cons p m ih =>
    obtain ⟨c, s⟩ := p
    rw [applyDatum_cons, if_neg (h c s (by simp)),
      ih (fun c' s' hm => h c' s' (List.mem_cons_of_mem _ hm))]

/-- With duplicate-free category names, a category name determines its set. -/
theorem keys_nodup_set_eq (m : CategoryMembership) (c : String) (s1 s2 : List String) :
    (m.map Prod.fst).Nodup → (c, s1) ∈ m → (c, s2) ∈ m → s1 = s2 := by
  induction m with
  | nil => intro _ h; cases h
  | cons p m ih =>
    intro hnd h1 h2
    obtain ⟨c0, s0⟩ := p
    rw [List.map_cons, List.nodup_cons] at hnd
    rcases List.mem_cons.mp h1 with h1h | h1t
    · rcases List.mem_cons.mp h2 with h2h | h2t
      · rw [Prod.mk.injEq] at h1h h2h
        rw [h1h.2, h2h.2]
      · exfalso
        apply hnd.1
        rw [Prod.mk.injEq] at h1h
        rw [← h1h.1]
        exact List.mem_map.mpr ⟨_, h2t, rfl⟩
    · rcases List.mem_cons.mp h2 with h2h | h2t
      · exfalso
        apply hnd.1
        rw [Prod.mk.injEq] at h2h
        rw [← h2h.1]
        exact List.mem_map.mpr ⟨_, h1t, rfl⟩
      · exact ih hnd.2 h1t h2t

/-- A category whose set contains the context ref receives exactly the
datum's value in one aggregation step (duplicate-free category names). -/
theorem lookupT_applyDatum_mem (m : CategoryMembership) (ctx : String) (v : ℚ)
    (cat : String) (s : List String) :
    (m.map Prod.fst).Nodup → (cat, s) ∈ m → ctx ∈ s → ∀ t : Totals,
      lookupT cat (applyDatum m ctx v t) = (lookupT cat t).map (· + v) := by
  induction m with
  | nil => intro _ h; cases h
  | cons p m ih =>
    intro hnd hmem hctx t
    obtain ⟨c0, s0⟩ := p
    rw [List.map_cons, List.nodup_cons] at hnd
    rw [applyDatum_cons]
    rcases List.mem_cons.mp hmem with hh | ht
    · rw [Prod.mk.injEq] at hh
      obtain ⟨hc, hs⟩ := hh
      subst hc
      subst hs
      rw [if_pos hctx]
      rw [lookupT_applyDatum_notmem _ _ _ _
        (fun s' hs' _ => hnd.1 (List.mem_map.mpr ⟨_, hs', rfl⟩)) _]
      exact lookupT_updateKey_self _ _ _
    · have hc0 : c0 ≠ cat := by
        intro hcc
        apply hnd.1
        rw [hcc]
        exact List.mem_map.mpr ⟨_, ht, rfl⟩
      by_cases hs0 : ctx ∈ s0
      · rw [if_pos hs0, ih hnd.2 ht hctx _,
          lookupT_updateKey_other _ _ _ _ (Ne.symm hc0)]
      · rw [if_neg hs0, ih hnd.2 ht hctx _]

/-- An element with a non-matching local tag name is skipped. -/
theorem elemStep_not_match (e : XmlElem) (h : matchesShareholding e = false) :
    elemStep e = .skip := by
  simp [elemStep, h]

/-- A matched element lacking a `contextRef` is skipped. -/
theorem elemStep_no_ctx (e : XmlElem) (h : e.contextRef = none) :
    elemStep e = .skip := by
  rw [elemStep, h]
  split <;> rfl

/-- A matched element lacking text is skipped. -/
theorem elemStep_no_text (e : XmlElem) (h : e.text = none) :
    elemStep e = .skip := by
  rw [elemStep, h]
  split
  · cases hc : e.contextRef <;> rfl
  · rfl

/-- A matched element with an empty `contextRef` value is skipped
(`not ctx` is true for the empty string). -/
theorem elemStep_empty_ctx (e : XmlElem) (h : e.contextRef = some "") :
    elemStep e = .skip := by
  rw [elemStep, h]
  split
  · cases ht : e.text
    · rfl
    · simp
  · rfl

/-- A matched element with empty text is skipped
(`not n.text` is true for the empty string). -/
theorem elemStep_empty_text (e : XmlElem) (h : e.text = some "") :
    elemStep e = .skip := by
  rw [elemStep, h]
  split
  · cases hc : e.contextRef
    · rfl
    · simp
  · rfl

/-- A matched element with non-empty `contextRef` and non-empty but
unparseable text is the `ValueError` case. -/
theorem elemStep_bad (e : XmlElem) (ctx txt : String)
    (hm : matchesShareholding e = true) (hc : e.contextRef = some ctx)
    (hc0 : ctx ≠ "") (ht : e.text = some txt) (ht0 : txt ≠ "")
    (hp : pyFloat txt = none) : elemStep e = .bad := by
  rw [elemStep, hm, hc, ht]
  simp [hc0, ht0, hp]

/-- What a produced datum says about its element: it was matched by local
name, the context ref is its (non-empty) `contextRef` attribute, and the
value is its parsed (non-empty) text. -/
theorem elemStep_datum_inv (e : XmlElem) (ctx : String) (v : ℚ)
    (h : elemStep e = .datum ctx v) :
    matchesShareholding e = true ∧ e.contextRef = some ctx ∧ ctx ≠ "" ∧
      ∃ txt, e.text = some txt ∧ txt ≠ "" ∧ pyFloat txt = some v := by
  rw [elemStep] at h
  cases hm : matchesShareholding e
  · rw [hm] at h
    simp at h
  · rw [hm] at h
    simp only [if_true] at h
    cases hc : e.contextRef with
    | none => rw [hc] at h; simp at h
    | some c =>
      cases ht : e.text with
      | none => rw [hc, ht] at h; simp at h
      | some txt =>
        rw [hc, ht] at h
        dsimp only at h
        by_cases h0 : c = "" ∨ txt = ""
        · rw [if_pos h0] at h
          cases h
        · rw [if_neg h0] at h
          push_neg at h0
          cases hp : pyFloat txt with
          | none => rw [hp] at h; cases h
          | some v0 =>
            rw [hp] at h
            cases h
            exact ⟨rfl, rfl, h0.1, txt, rfl, h0.2, hp⟩

theorem scanElems_cons_skip (m : CategoryMembership) (e : XmlElem)
    (rest : List XmlElem) (t : Totals) (h : elemStep e = .skip) :
    scanElems m (e :: rest) t = scanElems m rest t := by
  rw [scanElems, h]

theorem scanElems_cons_bad (m : CategoryMembership) (e : XmlElem)
    (rest : List XmlElem) (t : Totals) (h : elemStep e = .bad) :
    scanElems m (e :: rest) t = none := by
  rw [scanElems, h]

theorem scanElems_cons_datum (m : CategoryMembership) (e : XmlElem)
    (rest : List XmlElem) (t : Totals) (ctx : String) (v : ℚ)
    (h : elemStep e = .datum ctx v) :
    scanElems m (e :: rest) t = scanElems m rest (applyDatum m ctx v t) := by
  rw [scanElems, h]

/-- A successful scan never changes the key list of the totals. -/
theorem scanElems_keys (m : CategoryMembership) :
    ∀ (doc : List XmlElem) (t t' : Totals), scanElems m doc t = some t' →
      t'.map Prod.fst = t.map Prod.fst := by
  intro doc
  induction doc with
  | nil =>
    intro t t' h
    cases h
    rfl
  | cons e rest ih =>
    intro t t' h
    cases hs : elemStep e with
    | skip =>
      rw [scanElems_cons_skip m e rest t hs] at h
      exact ih t t' h
    | bad =>
      rw [scanElems_cons_bad m e rest t hs] at h
      cases h
    | datum ctx v =>
      rw [scanElems_cons_datum m e rest t ctx v hs] at h
      rw [ih _ t' h, applyDatum_keys]

/-- A document with no matching element leaves the totals untouched. -/
theorem scanElems_no_match (m : CategoryMembership) :
    ∀ (doc : List XmlElem) (t : Totals),
      (∀ e ∈ doc, matchesShareholding e = false) →
      scanElems m doc t = some t := by
  intro doc
  induction doc with
  | nil => intro t _; rfl
  | cons e rest ih =>
    intro t h
    rw [scanElems_cons_skip m e rest t (elemStep_not_match e (h e (by simp)))]
    exact ih t (fun e' he' => h e' (List.mem_cons_of_mem _ he'))

/-- A category whose set contains no context ref of any document element
keeps its total through the whole scan (duplicate-free category names). -/
theorem scanElems_lookup_preserved (m : CategoryMembership) (cat : String)
    (s : List String) (hnd : (m.map Prod.fst).Nodup) (hmem : (cat, s) ∈ m) :
    ∀ (doc : List XmlElem) (t t' : Totals),
      (∀ e ∈ doc, ∀ c, e.contextRef = some c → c ∉ s) →
      scanElems m doc t = some t' → lookupT cat t' = lookupT cat t := by
  intro doc
  induction doc with
  | nil =>
    intro t t' _ h
    cases h
    rfl
  | cons e rest ih =>
    intro t t' hdoc h
    cases hs : elemStep e with
    | skip =>
      rw [scanElems_cons_skip m e rest t hs] at h
      exact ih t t' (fun e' he' => hdoc e' (List.mem_cons_of_mem _ he')) h
    | bad =>
      rw [scanElems_cons_bad m e rest t hs] at h
      cases h
    | datum ctx v =>
      rw [scanElems_cons_datum m e rest t ctx v hs] at h
      obtain ⟨_, hc, _, _⟩ := elemStep_datum_inv e ctx v hs
      have hctx : ctx ∉ s := hdoc e (by simp) ctx hc
      rw [ih _ t' (fun e' he' => hdoc e' (List.mem_cons_of_mem _ he')) h]
      exact lookupT_applyDatum_notmem m ctx v cat
        (fun s' hs' => keys_nodup_set_eq m cat s' s hnd hs' hmem ▸ hctx) t

/-- Initialization keeps exactly the category names as keys. -/
theorem initTotals_keys (m : CategoryMembership) :
    (initTotals m).map Prod.fst = m.map Prod.fst := by
  simp [initTotals]

/-- Every category starts at zero. -/
theorem lookupT_initTotals (m : CategoryMembership) (cat : String)
    (h : cat ∈ m.map Prod.fst) : lookupT cat (initTotals m) = some 0 := by
  induction m with
  | nil => cases h
  | cons p m ih =>
    obtain ⟨c, s⟩ := p
    rw [List.map_cons] at h
    by_cases hc : c = cat
    · simp [initTotals, lookupT, hc]
    · rcases List.mem_cons.mp h with hh | ht
      · exact absurd hh.symm hc
      · simp only [initTotals, List.map_cons, lookupT, if_neg hc]
        exact ih ht

/-- A small two-category table whose sets overlap on context ref "X". -/
def m2 : CategoryMembership := [("perf_bank", ["X"]), ("perf_mf", ["X", "Y"])]

/-- Concrete totals over the two categories of `m2`. -/
def t2 : Totals := [("perf_bank", 0), ("perf_mf", 0)]

/-- A one-element document whose element does not carry the shareholding tag. -/
def docNoMatch : List XmlElem := [⟨"otherTag", none, some "Z", some "1.0"⟩]

/-- C1: for every membership table (with its dict-unique category names) and
every running totals, when a datum's context_ref is present in the
membership set of a category — hence of every category containing it, two or
more included — processing the datum adds its value to that category's
running total, not only to the first matching one. -/
theorem claim_C1_fanout_all_matching (m : CategoryMembership) (ctx : String)
    (v : ℚ) (t : Totals) (hnd : (m.map Prod.fst).Nodup) :
    ∀ cat s, (cat, s) ∈ m → ctx ∈ s → ∀ x, lookupT cat t = some x →
      lookupT cat (applyDatum m ctx v t) = some (x + v) := by
  intro cat s hmem hctx x hx
  rw [lookupT_applyDatum_mem m ctx v cat s hnd hmem hctx t, hx]
  rfl

/-- C1 witness: in `m2` the context ref "X" belongs to both categories'
sets, and both totals increase by the value 3. -/
theorem claim_C1_witness :
    lookupT "perf_bank" (applyDatum m2 "X" 3 t2) = some (0 + 3) ∧
    lookupT "perf_mf" (applyDatum m2 "X" 3 t2) = some (0 + 3) :=
  ⟨claim_C1_fanout_all_matching m2 "X" 3 t2 (by decide) "perf_bank" ["X"]
      (by decide) (by decide) 0 rfl,
    claim_C1_fanout_all_matching m2 "X" 3 t2 (by decide) "perf_mf" ["X", "Y"]
      (by decide) (by decide) 0 rfl⟩

/-- C4: a datum whose context_ref lies in exactly one category's set
increases that category's total by exactly the datum's value and leaves
every other category's total unchanged. -/
theorem claim_C4_single_category_frame (m : CategoryMembership) (ctx : String)
    (v : ℚ) (t : Totals) (cat : String) (s : List String)
    (hnd : (m.map Prod.fst).Nodup) (hmem : (cat, s) ∈ m) (hctx : ctx ∈ s)
    (honly : ∀ p ∈ m, p.1 ≠ cat → ctx ∉ p.2) :
    (∀ x, lookupT cat t = some x →
      lookupT cat (applyDatum m ctx v t) = some (x + v)) ∧
    (∀ c, c ≠ cat → lookupT c (applyDatum m ctx v t) = lookupT c t) := by
  constructor
  · intro x hx
    rw [lookupT_applyDatum_mem m ctx v cat s hnd hmem hctx t, hx]
    rfl
  · intro c hc
    exact lookupT_applyDatum_notmem m ctx v c
      (fun s' hs' => honly (c, s') hs' hc) t

/-- C4 witness: "Y" is only in the set of "perf_mf"; that total increases
by 7 and the other total is untouched. -/
theorem claim_C4_witness :
    lookupT "perf_mf" (applyDatum m2 "Y" 7 t2) = some (0 + 7) ∧
    lookupT "perf_bank" (applyDatum m2 "Y" 7 t2) = lookupT "perf_bank" t2 := by
  have h := claim_C4_single_category_frame m2 "Y" 7 t2 "perf_mf" ["X", "Y"]
    (by decide) (by decide) (by decide) (by decide)
  exact ⟨h.1 0 rfl, h.2 "perf_bank" (by decide)⟩

/-- C10: a datum whose context_ref belongs to no category's set leaves the
totals entirely unchanged, and the key set of the totals returned by the
aggregation always equals exactly the category names of the table — no key
is added or removed during the scan. -/
theorem claim_C10_unmatched_datum_and_keyset (m : CategoryMembership)
    (ctx : String) (v : ℚ) (t : Totals) (doc : List XmlElem) (t' : Totals)
    (hno : ∀ p ∈ m, ctx ∉ p.2)
    (hsc : fetch_data_from_xbrl m doc = some t') :
    applyDatum m ctx v t = t ∧ t'.map Prod.fst = m.map Prod.fst := by
  refine ⟨applyDatum_id m ctx v t (fun c s h => hno (c, s) h), ?_⟩
  rw [scanElems_keys m doc (initTotals m) t' hsc, initTotals_keys]

/-- C10 witness: "Z" belongs to no set of `m2`, so the totals are unchanged,
and the scan of a document keeps exactly the categories as keys. -/
theorem claim_C10_witness :
    applyDatum m2 "Z" 5 t2 = t2 ∧
    (initTotals m2).map Prod.fst = m2.map Prod.fst :=
  claim_C10_unmatched_datum_and_keyset m2 "Z" 5 t2 docNoMatch (initTotals m2)
    (by decide) rfl

/-- C3: every successful aggregation returns totals whose keys are exactly
the known category names; every category starts at 0.0 before the scan; a
document with zero matching elements returns the initial all-zero totals;
and a category none of whose context refs occurs in the document still maps
to 0.0 rather than being absent. -/
theorem claim_C3_all_categories_present (m : CategoryMembership)
    (doc : List XmlElem) (t : Totals) (hnd : (m.map Prod.fst).Nodup)
    (hsc : fetch_data_from_xbrl m doc = some t) :
    t.map Prod.fst = m.map Prod.fst ∧
    (∀ cat ∈ m.map Prod.fst, lookupT cat (initTotals m) = some 0) ∧
    ((∀ e ∈ doc, matchesShareholding e = false) → t = initTotals m) ∧
    (∀ cat s, (cat, s) ∈ m → (∀ e ∈ doc, ∀ c ∈ s, e.contextRef ≠ some c) →
      lookupT cat t = some 0) := by
  refine ⟨?_, ?_, ?_, ?_⟩
  · rw [scanElems_keys m doc (initTotals m) t hsc, initTotals_keys]
  · intro cat hcat
    exact lookupT_initTotals m cat hcat
  · intro hnm
    have h0 := scanElems_no_match m doc (initTotals m) hnm
    rw [fetch_data_from_xbrl, h0] at hsc
    exact (Option.some.injEq _ _).mp hsc.symm
  · intro cat s hmem hdoc
    have hpres := scanElems_lookup_preserved m cat s hnd hmem doc
      (initTotals m) t (fun e he c hec hcs => hdoc e he c hcs hec) hsc
    rw [hpres]
    exact lookupT_initTotals m cat (List.mem_map.mpr ⟨_, hmem, rfl⟩)

/-- C3 witness: scanning a document with no matching element over `m2`
keeps both categories present and "perf_bank" (whose set contains no
context ref of the document) at zero. -/
theorem claim_C3_witness :
    (initTotals m2).map Prod.fst = m2.map Prod.fst ∧
    lookupT "perf_bank" (initTotals m2) = some 0 := by
  have h := claim_C3_all_categories_present m2 docNoMatch (initTotals m2)
    (by decide) rfl
  exact ⟨h.1, h.2.2.2 "perf_bank" ["X"] (by decide) (by decide)⟩

/-- A one-category table for the ValueError scenario. -/
def mC2 : CategoryMembership := [("cat", ["X"])]

/-- A document with a non-numeric matched element followed by a well-formed
one. -/
def docC2 : List XmlElem :=
  [⟨shareholdingTag, none, some "X", some "abc"⟩,
    ⟨shareholdingTag, none, some "X", some "2"⟩]

/-- C2 counterexample: the claim predicts the element with unparseable text
"abc" is skipped and the document still yields the other element's data;
`val = float(n.text)` (line 77) is not guarded, so the `ValueError` reaches
the outer `except Exception` handler and the whole document yields an error
— even though the same document without the offending element yields data. -/
theorem claim_C2_counterexample :
    fetch_data_from_xbrl mC2 docC2 = none ∧
    fetch_data_from_xbrl mC2 [⟨shareholdingTag, none, some "X", some "2"⟩] =
      some [("cat", 0 + ((2 : Nat) : ℚ) / ((1 : Nat) : ℚ))] :=
  ⟨rfl, rfl⟩

/-- C2 amended: a matched element lacking a context ref or text, or whose
context ref or text is empty, is silently skipped and the scan continues;
but a matched element whose non-empty text is not parseable as a float
raises an error that propagates, aborting extraction for the entire
document (the row is reported as an error) instead of skipping just that
element. -/
theorem claim_C2_amended_skip_vs_abort (m : CategoryMembership) (e : XmlElem)
    (rest : List XmlElem) (t : Totals) :
    (e.contextRef = none ∨ e.contextRef = some "" ∨
        e.text = none ∨ e.text = some "" →
      scanElems m (e :: rest) t = scanElems m rest t) ∧
    (∀ ctx txt, matchesShareholding e = true → e.contextRef = some ctx →
      ctx ≠ "" → e.text = some txt → txt ≠ "" → pyFloat txt = none →
      scanElems m (e :: rest) t = none) := by
  constructor
  · intro h
    rcases h with h | h | h | h
    · exact scanElems_cons_skip m e rest t (elemStep_no_ctx e h)
    · exact scanElems_cons_skip m e rest t (elemStep_empty_ctx e h)
    · exact scanElems_cons_skip m e rest t (elemStep_no_text e h)
    · exact scanElems_cons_skip m e rest t (elemStep_empty_text e h)
  · intro ctx txt hm hc hc0 ht ht0 hp
    exact scanElems_cons_bad m e rest t (elemStep_bad e ctx txt hm hc hc0 ht ht0 hp)

/-- C2 witness: an element with no context ref is skipped (scan goes on
with the rest), while the unparseable "abc" aborts the whole document. -/
theorem claim_C2_witness :
    scanElems mC2 (⟨shareholdingTag, none, none, some "5"⟩ ::
        [⟨shareholdingTag, none, some "X", some "2"⟩]) (initTotals mC2) =
      scanElems mC2 [⟨shareholdingTag, none, some "X", some "2"⟩]
        (initTotals mC2) ∧
    scanElems mC2 (⟨shareholdingTag, none, some "X", some "abc"⟩ ::
        [⟨shareholdingTag, none, some "X", some "2"⟩]) (initTotals mC2) =
      none :=
  ⟨(claim_C2_amended_skip_vs_abort mC2 ⟨shareholdingTag, none, none, some "5"⟩
      [⟨shareholdingTag, none, some "X", some "2"⟩] (initTotals mC2)).1
      (Or.inl rfl),
    (claim_C2_amended_skip_vs_abort mC2
      ⟨shareholdingTag, none, some "X", some "abc"⟩
      [⟨shareholdingTag, none, some "X", some "2"⟩] (initTotals mC2)).2
      "X" "abc" (by decide) rfl (by decide) rfl (by decide) (by decide)⟩

/-- C7: selection is by namespace-stripped local tag name only: whatever
namespace name `p` the element carries, a one-element document with local
name `ShareholdingAsAPercentageOfTotalNumberOfShares`, contextRef "X" and
text "12.5" yields exactly one extracted datum ("X", 12.5), and the scan
processes exactly that datum. -/
theorem claim_C7_local_name_only (p : Option String) :
    extractData [⟨shareholdingTag, p, some "X", some "12.5"⟩] =
      some [("X", (25 : ℚ) / 2)] ∧
    ∀ (m : CategoryMembership) (t : Totals),
      scanElems m [⟨shareholdingTag, p, some "X", some "12.5"⟩] t =
        some (applyDatum m "X" ((25 : ℚ) / 2) t) := by
  have hv : ((125 : Nat) : ℚ) / ((10 : Nat) : ℚ) = (25 : ℚ) / 2 := by norm_num
  have hs : elemStep ⟨shareholdingTag, p, some "X", some "12.5"⟩ =
      .datum "X" ((25 : ℚ) / 2) := by
    rw [show elemStep ⟨shareholdingTag, p, some "X", some "12.5"⟩ =
      .datum "X" (((125 : Nat) : ℚ) / ((10 : Nat) : ℚ)) from rfl, hv]
  constructor
  · rw [extractData, hs, extractData]
    rfl
  · intro m t
    rw [scanElems, hs]
    rfl

/-- C7 witness: the same document with a concrete namespace name. -/
theorem claim_C7_witness :
    extractData [⟨shareholdingTag, some "in", some "X", some "12.5"⟩] =
      some [("X", (25 : ℚ) / 2)] ∧
    scanElems m2 [⟨shareholdingTag, some "in", some "X", some "12.5"⟩] t2 =
      some (applyDatum m2 "X" ((25 : ℚ) / 2) t2) :=
  ⟨(claim_C7_local_name_only (some "in")).1,
    (claim_C7_local_name_only (some "in")).2 m2 t2⟩

/-- What one element contributes to the context-ref discovery of
`extract_shareholding_pct` (lines 62-67): its `contextRef` value, unless
the element is unmatched or the value is absent or empty (falsy `if ctx:`). -/
def refStep (e : XmlElem) : Option String :=
  if matchesShareholding e then
    match e.contextRef with
    | some c => if c = "" then none else some c
    | none => none
  else none

/-- The collection loop of `extract_shareholding_pct`: contributed context
refs in document order (the Python code accumulates them into a set; order
is irrelevant after the final sort). -/
def collectContextRefs : List XmlElem → List String
  | [] => []
  | e :: rest =>
    match refStep e with
    | some c => c :: collectContextRefs rest
    | none => collectContextRefs rest

/-- Function `extract_shareholding_pct` (lines 34-70), fetch and parse
abstracted to the element sequence: `sorted(list(context_refs))` of the
collected set. -/
def extract_shareholding_pct (doc : List XmlElem) : List String :=
  ((collectContextRefs doc).dedup).insertionSort (· ≤ ·)

/-- Characterization of a contributed context ref. -/
theorem refStep_eq_some (e : XmlElem) (a : String) :
    refStep e = some a ↔
      matchesShareholding e = true ∧ e.contextRef = some a ∧ a ≠ "" := by
  constructor
  · intro h
    rw [refStep] at h
    split at h
    · rename_i hm
      split at h
      · rename_i c hc
        split at h
        · cases h
        · rename_i h0
          cases h
          exact ⟨hm, hc, h0⟩
      · cases h
    · cases h
  · rintro ⟨hm, hc, ha⟩
    rw [refStep, hm, hc]
    simp [ha]

/-- Membership in the collected refs. -/
theorem mem_collectContextRefs (a : String) :
    ∀ doc : List XmlElem,
      a ∈ collectContextRefs doc ↔ ∃ e ∈ doc, refStep e = some a := by
  intro doc
  induction doc with
  | nil => simp [collectContextRefs]
  | cons e rest ih =>
    cases h : refStep e with
    | none =>
      simp only [collectContextRefs, h, ih]
      constructor
      · rintro ⟨e', he', hp⟩
        exact ⟨e', List.mem_cons_of_mem _ he', hp⟩
      · rintro ⟨e', he', hp⟩
        rcases List.mem_cons.mp he' with rfl | he'
        · rw [h] at hp; cases hp
        · exact ⟨e', he', hp⟩
    | some c =>
      simp only [collectContextRefs, h, List.mem_cons, ih]
      constructor
      · rintro (rfl | ⟨e', he', hp⟩)
        · exact ⟨e, Or.inl rfl, h⟩
        · exact ⟨e', Or.inr he', hp⟩
      · rintro ⟨e', he', hp⟩
        rcases he' with rfl | he'
        · rw [h] at hp
          exact Or.inl (Option.some.inj hp).symm
        · exact Or.inr ⟨e', he', hp⟩

/-- Membership in the final sorted list. -/
theorem mem_extract_shareholding_pct (a : String) (doc : List XmlElem) :
    a ∈ extract_shareholding_pct doc ↔ ∃ e ∈ doc, refStep e = some a := by
  rw [extract_shareholding_pct,
    (List.perm_insertionSort _ _).mem_iff, List.mem_dedup,
    mem_collectContextRefs]

/-- C9 counterexample: a matched element that HAS a `contextRef` attribute,
with empty value, contributes nothing (`if ctx:` is false for ""), so the
output is `[]` and not the claimed `[""]` — the claim exempts only elements
without the attribute. -/
theorem claim_C9_counterexample :
    matchesShareholding ⟨shareholdingTag, none, some "", some "1"⟩ = true ∧
    XmlElem.contextRef ⟨shareholdingTag, none, some "", some "1"⟩ = some "" ∧
    extract_shareholding_pct [⟨shareholdingTag, none, some "", some "1"⟩] = [] ∧
    ([] : List String) ≠ [""] := by
  exact ⟨by decide, rfl, rfl, by decide⟩

/-- C9 (amended): context-ref discovery returns a duplicate-free list,
sorted in ascending order, of the non-empty `contextRef` values of the
matching elements; an element without a `contextRef` attribute — or whose
value is the empty string — contributes nothing; and any two documents
whose matching elements carry the same set of non-empty `contextRef`
values return equal lists, regardless of element order. -/
theorem claim_C9_sorted_unique_refs (doc : List XmlElem) :
    List.Sorted (· ≤ ·) (extract_shareholding_pct doc) ∧
    (extract_shareholding_pct doc).Nodup ∧
    (∀ a, a ∈ extract_shareholding_pct doc ↔
      a ≠ "" ∧ ∃ e ∈ doc, matchesShareholding e = true ∧
        e.contextRef = some a) ∧
    ∀ doc' : List XmlElem,
      (∀ a, a ≠ "" →
        ((∃ e ∈ doc, matchesShareholding e = true ∧ e.contextRef = some a) ↔
          (∃ e ∈ doc', matchesShareholding e = true ∧ e.contextRef = some a))) →
      extract_shareholding_pct doc = extract_shareholding_pct doc' := by
  refine ⟨List.sorted_insertionSort _ _,
    ((List.perm_insertionSort _ _).nodup_iff).mpr (List.nodup_dedup _), ?_, ?_⟩
  · intro a
    rw [mem_extract_shareholding_pct]
    constructor
    · rintro ⟨e, he, hp⟩
      obtain ⟨h1, h2, h3⟩ := (refStep_eq_some e a).mp hp
      exact ⟨h3, e, he, h1, h2⟩
    · rintro ⟨h3, e, he, h1, h2⟩
      exact ⟨e, he, (refStep_eq_some e a).mpr ⟨h1, h2, h3⟩⟩
  · intro doc' hiff
    refine List.eq_of_perm_of_sorted ?_ (List.sorted_insertionSort _ _)
      (List.sorted_insertionSort _ _)
    refine (List.perm_ext_iff_of_nodup
      (((List.perm_insertionSort _ _).nodup_iff).mpr (List.nodup_dedup _))
      (((List.perm_insertionSort _ _).nodup_iff).mpr (List.nodup_dedup _))).mpr ?_
    intro a
    show a ∈ extract_shareholding_pct doc ↔ a ∈ extract_shareholding_pct doc'
    rw [mem_extract_shareholding_pct, mem_extract_shareholding_pct]
    constructor
    · rintro ⟨e, he, hp⟩
      obtain ⟨h1, h2, h3⟩ := (refStep_eq_some e a).mp hp
      obtain ⟨e', he', h1', h2'⟩ := (hiff a h3).mp ⟨e, he, h1, h2⟩
      exact ⟨e', he', (refStep_eq_some e' a).mpr ⟨h1', h2', h3⟩⟩
    · rintro ⟨e, he, hp⟩
      obtain ⟨h1, h2, h3⟩ := (refStep_eq_some e a).mp hp
      obtain ⟨e', he', h1', h2'⟩ := (hiff a h3).mpr ⟨e, he, h1, h2⟩
      exact ⟨e', he', (refStep_eq_some e' a).mpr ⟨h1', h2', h3⟩⟩

/-- A matching element with context ref "B". -/
def e9a : XmlElem := ⟨shareholdingTag, none, some "B", some "1"⟩

/-- A matching element (different namespace) with context ref "A", no text. -/
def e9b : XmlElem := ⟨shareholdingTag, some "ns", some "A", none⟩

/-- C9 witness: a concrete two-element document gets a sorted result with
the membership characterization, and its reversal returns the same list. -/
theorem claim_C9_witness :
    List.Sorted (· ≤ ·) (extract_shareholding_pct [e9a, e9b]) ∧
    ("A" ∈ extract_shareholding_pct [e9a, e9b] ↔
      "A" ≠ "" ∧ ∃ e ∈ [e9a, e9b], matchesShareholding e = true ∧
        e.contextRef = some "A") ∧
    extract_shareholding_pct [e9a, e9b] = extract_shareholding_pct [e9b, e9a] := by
  have h := claim_C9_sorted_unique_refs [e9a, e9b]
  refine ⟨h.1, h.2.2.1 "A", h.2.2.2 [e9b, e9a] ?_⟩
  intro a _
  constructor
  · rintro ⟨e, he, hp⟩
    refine ⟨e, ?_, hp⟩
    rcases List.mem_cons.mp he with rfl | he
    · exact List.mem_cons_of_mem _ (List.mem_cons_self _ _)
    · rcases List.mem_cons.mp he with rfl | he
      · exact List.mem_cons_self _ _
      · exact (List.not_mem_nil _ he).elim
  · rintro ⟨e, he, hp⟩
    refine ⟨e, ?_, hp⟩
    rcases List.mem_cons.mp he with rfl | he
    · exact List.mem_cons_of_mem _ (List.mem_cons_self _ _)
    · rcases List.mem_cons.mp he with rfl | he
      · exact List.mem_cons_self _ _
      · exact (List.not_mem_nil _ he).elim

/-- The retry configuration record of `get_session_with_retries`. -/
structure RetryConfig where
  total : Nat
  backoff_factor : Nat
  status_forcelist : List Nat
  allowed_methods : List String
deriving DecidableEq

/-- The configuration `Retry(total=5, backoff_factor=2,
status_forcelist=[429, 500, 502, 503, 504], allowed_methods=["GET"])` —
fetch_data_by_context_refs.py lines 24-29, identically xbr_data_extract.py
lines 16-21. -/
def retry_strategy : RetryConfig :=
  ⟨5, 2, [429, 500, 502, 503, 504], ["GET"]⟩

/-- Outcome of a single HTTP attempt, supplied by the environment. -/
inductive AttemptResult where
  | success (body : String)
  | connFailure
  | timeout
  | httpStatus (code : Nat)
deriving DecidableEq

/-- Modelled from the spec: which failures the policy retries — connection
failure, timeout, or an HTTP status in the force-list, and only for an
allowed (idempotent GET) method.  The retry engine itself lives in
urllib3/requests, outside this repository; only the configuration above is
repository code. -/
def isRetryable (cfg : RetryConfig) (method : String) : AttemptResult → Bool
  | .success _ => false
  | .connFailure => cfg.allowed_methods.contains method
  | .timeout => cfg.allowed_methods.contains method
  | .httpStatus c =>
    cfg.allowed_methods.contains method && cfg.status_forcelist.contains c

/-- Modelled from the spec: the wait before retry `k` — exponential backoff
with the configured base factor (≈ factor^k seconds, optionally jittered). -/
def backoff_wait (cfg : RetryConfig) (k : Nat) : Nat := cfg.backoff_factor ^ k

/-- Modelled from the spec: the fetch loop — `fuel` attempts remain; a
success returns at once, a retryable failure tries again, a non-retryable
HTTP failure fails immediately, exhaustion raises `FetchError`.  Returns
the outcome with the number of attempts actually made. -/
def fetchLoop (cfg : RetryConfig) (method : String)
    (attempt : Nat → AttemptResult) : Nat → Nat → Except String String × Nat
  | 0, _ => (.error "FetchError", 0)
  | fuel + 1, i =>
    match attempt i with
    | .success b => (.ok b, 1)
    | r =>
      if isRetryable cfg method r then
        let p := fetchLoop cfg method attempt fuel (i + 1)
        (p.1, p.2 + 1)
      else (.error "HTTPError", 1)

/-- Modelled from the spec: a fetch under the configured policy — attempts
numbered 0, 1, ..., at most `cfg.total` of them in all. -/
def fetchWithRetry (cfg : RetryConfig) (method : String)
    (attempt : Nat → AttemptResult) : Except String String × Nat :=
  fetchLoop cfg method attempt cfg.total 0

theorem fetchLoop_succ_success (cfg : RetryConfig) (method : String)
    (attempt : Nat → AttemptResult) (fuel i : Nat) (b : String)
    (h : attempt i = .success b) :
    fetchLoop cfg method attempt (fuel + 1) i = (.ok b, 1) := by
  simp [fetchLoop, h]

theorem fetchLoop_succ_retry (cfg : RetryConfig) (method : String)
    (attempt : Nat → AttemptResult) (fuel i : Nat)
    (h : isRetryable cfg method (attempt i) = true) :
    fetchLoop cfg method attempt (fuel + 1) i =
      ((fetchLoop cfg method attempt fuel (i + 1)).1,
        (fetchLoop cfg method attempt fuel (i + 1)).2 + 1) := by
  cases ha : attempt i with
  | success b => rw [ha] at h; simp [isRetryable] at h
  | connFailure => rw [ha] at h; simp [fetchLoop, ha, h]
  | timeout => rw [ha] at h; simp [fetchLoop, ha, h]
  | httpStatus c => rw [ha] at h; simp [fetchLoop, ha, h]

theorem fetchLoop_succ_noretry (cfg : RetryConfig) (method : String)
    (attempt : Nat → AttemptResult) (fuel i : Nat)
    (hs : ∀ b, attempt i ≠ .success b)
    (h : isRetryable cfg method (attempt i) = false) :
    fetchLoop cfg method attempt (fuel + 1) i = (.error "HTTPError", 1) := by
  cases ha : attempt i with
  | success b => exact absurd ha (hs b)
  | connFailure => rw [ha] at h; simp [fetchLoop, ha, h]
  | timeout => rw [ha] at h; simp [fetchLoop, ha, h]
  | httpStatus c => rw [ha] at h; simp [fetchLoop, ha, h]

/-- Retryable failure on every remaining attempt exhausts the fuel. -/
theorem fetchLoop_all_retry (cfg : RetryConfig) (method : String)
    (attempt : Nat → AttemptResult) :
    ∀ fuel i, (∀ j, j < fuel → isRetryable cfg method (attempt (i + j)) = true) →
      fetchLoop cfg method attempt fuel i = (.error "FetchError", fuel) := by
  intro fuel
  induction fuel with
  | zero => intro i _; rfl
  | succ n ih =>
    intro i h
    have h0 : isRetryable cfg method (attempt i) = true := h 0 (Nat.succ_pos n)
    rw [fetchLoop_succ_retry cfg method attempt n i h0,
      ih (i + 1) (fun j hj => by
        have hj2 := h (j + 1) (Nat.succ_lt_succ hj)
        rw [show i + (j + 1) = i + 1 + j by omega] at hj2
        exact hj2)]

/-- C5: the configured policy is total=5, backoff base factor 2, retryable
statuses exactly {429, 500, 502, 503, 504}, GET-only; connection failure and
timeout are retryable, nothing is retried for a non-GET method; waits grow
as 2^k; 503 on the first two attempts with success on the third returns the
body after exactly 3 attempts; a non-retryable 404 fails immediately after
a single attempt; retryable failure on every attempt exhausts all 5 and
raises the fetch error. -/
theorem claim_C5_retry_policy :
    retry_strategy = ⟨5, 2, [429, 500, 502, 503, 504], ["GET"]⟩ ∧
    (∀ c, isRetryable retry_strategy "GET" (.httpStatus c) = true ↔
      c ∈ [429, 500, 502, 503, 504]) ∧
    isRetryable retry_strategy "GET" .connFailure = true ∧
    isRetryable retry_strategy "GET" .timeout = true ∧
    (∀ method r, method ≠ "GET" →
      isRetryable retry_strategy method r = false) ∧
    (∀ k, backoff_wait retry_strategy k = 2 ^ k) ∧
    (∀ attempt b, attempt 0 = .httpStatus 503 → attempt 1 = .httpStatus 503 →
      attempt 2 = .success b →
      fetchWithRetry retry_strategy "GET" attempt = (.ok b, 3)) ∧
    (∀ attempt, attempt 0 = .httpStatus 404 →
      fetchWithRetry retry_strategy "GET" attempt = (.error "HTTPError", 1)) ∧
    (∀ attempt,
      (∀ i, i < 5 → isRetryable retry_strategy "GET" (attempt i) = true) →
      fetchWithRetry retry_strategy "GET" attempt = (.error "FetchError", 5)) := by
  refine ⟨rfl, ?_, rfl, rfl, ?_, fun k => rfl, ?_, ?_, ?_⟩
  · intro c
    simp [isRetryable, retry_strategy]
  · intro method r hm
    cases r with
    | success b => rfl
    | connFailure => simp [isRetryable, retry_strategy, hm]
    | timeout => simp [isRetryable, retry_strategy, hm]
    | httpStatus c => simp [isRetryable, retry_strategy, hm]
  · intro attempt b h0 h1 h2
    show fetchLoop retry_strategy "GET" attempt (4 + 1) 0 = (.ok b, 3)
    rw [fetchLoop_succ_retry retry_strategy "GET" attempt 4 0 (by rw [h0]; rfl)]
    rw [show (4 : Nat) = 3 + 1 from rfl,
      fetchLoop_succ_retry retry_strategy "GET" attempt 3 1 (by rw [h1]; rfl)]
    rw [show (3 : Nat) = 2 + 1 from rfl,
      fetchLoop_succ_success retry_strategy "GET" attempt 2 2 b h2]
  · intro attempt h0
    show fetchLoop retry_strategy "GET" attempt (4 + 1) 0 = (.error "HTTPError", 1)
    exact fetchLoop_succ_noretry retry_strategy "GET" attempt 4 0
      (fun b hb => by rw [h0] at hb; cases hb) (by rw [h0]; rfl)
  · intro attempt h
    show fetchLoop retry_strategy "GET" attempt 5 0 = (.error "FetchError", 5)
    exact fetchLoop_all_retry retry_strategy "GET" attempt 5 0
      (fun j hj => by rw [Nat.zero_add]; exact h j hj)

/-- Attempts giving 503 twice, then success. -/
def attemptW : Nat → AttemptResult := fun i =>
  if i = 0 then .httpStatus 503 else
    if i = 1 then .httpStatus 503 else .success "ok"

/-- Always 404. -/
def attempt404 : Nat → AttemptResult := fun _ => .httpStatus 404

/-- Always a connection failure. -/
def attemptConnFail : Nat → AttemptResult := fun _ => .connFailure

/-- C5 witness: the three concrete scenarios, plus the 503-is-retryable and
backoff facts. -/
theorem claim_C5_witness :
    fetchWithRetry retry_strategy "GET" attemptW = (.ok "ok", 3) ∧
    fetchWithRetry retry_strategy "GET" attempt404 = (.error "HTTPError", 1) ∧
    fetchWithRetry retry_strategy "GET" attemptConnFail =
      (.error "FetchError", 5) ∧
    isRetryable retry_strategy "GET" (.httpStatus 503) = true ∧
    backoff_wait retry_strategy 2 = 2 ^ 2 :=
  ⟨claim_C5_retry_policy.2.2.2.2.2.2.1 attemptW "ok" rfl rfl rfl,
    claim_C5_retry_policy.2.2.2.2.2.2.2.1 attempt404 rfl,
    claim_C5_retry_policy.2.2.2.2.2.2.2.2 attemptConnFail (fun i _ => rfl),
    (claim_C5_retry_policy.2.1 503).mpr (by decide),
    claim_C5_retry_policy.2.2.2.2.2.1 2⟩

/-- One input row of the CSV: the `symbol` and its XBRL document URL. -/
structure StockRow where
  symbol : String
  xbrl : String
deriving DecidableEq

/-- The per-row result dict of `process_stock_for_context_refs`: a success
carries the totals (and no error field, here `none`), an error carries the
message (and empty data), exactly as lines 102-118 build it. -/
structure RowOutcome where
  symbol : String
  status : String
  data : Totals
  error : Option String
deriving DecidableEq

/-- Function `fetch_data_from_xbrl` with its fetch and parse: network and
XML parser are abstracted into `net`, which returns the parsed element sequence or the
fetch/parse error text; the try/except of lines 62-86 wraps every failure —
the `ValueError` of the scan included — into the raised
`Exception(f"Error fetching from {url}: ...")`. -/
def fetch_data_from_xbrl_net (net : String → Except String (List XmlElem))
    (m : CategoryMembership) (url : String) : Except String Totals :=
  match net url with
  | .error e => .error ("Error fetching from " ++ url ++ ": " ++ e)
  | .ok doc =>
    match fetch_data_from_xbrl m doc with
    | some t => .ok t
    | none => .error ("Error fetching from " ++ url ++ ": ValueError")

/-- Function `process_stock_for_context_refs` (lines 89-118): the sleep
does not affect the outcome; the try/except converts any failure of this
row's own pipeline into this row's error outcome. -/
def process_stock_for_context_refs
    (net : String → Except String (List XmlElem)) (m : CategoryMembership)
    (row : StockRow) : RowOutcome :=
  match fetch_data_from_xbrl_net net m row.xbrl with
  | .ok d => ⟨row.symbol, "success", d, none⟩
  | .error e => ⟨row.symbol, "error", [], some e⟩

/-- The fan-out/fan-in of `fetch_data_by_context_refs` (lines 144-163): one
task per input row, every worker's result collected.  The thread pool's
completion order is immaterial to the claims, so the collection is modelled
in input order; `process_stock_for_context_refs` is total, hence the
`future.result()` try/except never drops a result. -/
def run_orchestrator (net : String → Except String (List XmlElem))
    (m : CategoryMembership) (rows : List StockRow) : List RowOutcome :=
  rows.map (process_stock_for_context_refs net m)

/-- One row of the wide output table: symbol and status always present,
category columns only for successes, error column only for errors. -/
structure OutRow where
  symbol : String
  status : String
  data : Totals
  error : Option String
deriving DecidableEq

/-- The body of the reshaping loop (lines 169-174):
`row = {'symbol': .., 'status': ..}`, then `row.update(result['data'])` on
success and `row['error'] = result.get('error', '')` otherwise. -/
def makeOutRow (r : RowOutcome) : OutRow :=
  if r.status = "success" then ⟨r.symbol, r.status, r.data, none⟩
  else ⟨r.symbol, r.status, [], some (r.error.getD "")⟩

/-- The reshaping loop over all collected results (lines 167-174). -/
def result_data (results : List RowOutcome) : List OutRow :=
  results.map makeOutRow

/-- Function `fetch_data_by_context_refs` (lines 121-183), CSV input and
file output abstracted away: run every row, reshape into the wide table. -/
def fetch_data_by_context_refs (net : String → Except String (List XmlElem))
    (m : CategoryMembership) (rows : List StockRow) : List OutRow :=
  result_data (run_orchestrator net m rows)

/-- C6: a run over N input rows yields exactly N outcomes; each row's
outcome is a function of that row alone (so one row's fetch or parse
failure cannot abort the run or alter any other row's outcome); a row whose
pipeline fails is reported with status "error" and the error detail, every
row whose pipeline succeeds is reported with status "success" and its
totals, and no input row is dropped. -/
theorem claim_C6_row_isolation (net : String → Except String (List XmlElem))
    (m : CategoryMembership) (rows : List StockRow) :
    (run_orchestrator net m rows).length = rows.length ∧
    ∀ (i : Nat) (row : StockRow), rows[i]? = some row →
      (run_orchestrator net m rows)[i]? =
        some (process_stock_for_context_refs net m row) ∧
      (∀ e, fetch_data_from_xbrl_net net m row.xbrl = .error e →
        process_stock_for_context_refs net m row =
          ⟨row.symbol, "error", [], some e⟩) ∧
      (∀ d, fetch_data_from_xbrl_net net m row.xbrl = .ok d →
        process_stock_for_context_refs net m row =
          ⟨row.symbol, "success", d, none⟩) := by
  refine ⟨List.length_map _ _, ?_⟩
  intro i row hrow
  refine ⟨?_, ?_, ?_⟩
  · rw [run_orchestrator, List.getElem?_map, hrow]
    rfl
  · intro e he
    rw [process_stock_for_context_refs, he]
  · intro d hd
    rw [process_stock_for_context_refs, hd]

/-- The environment of the C6 scenario: fetching url "u1" fails, any other
url returns the no-match document. -/
def net0 : String → Except String (List XmlElem) := fun url =>
  if url = "u1" then .error "boom" else .ok docNoMatch

/-- Two concrete input rows for the C6 scenario. -/
def rows0 : List StockRow := [⟨"AAA", "u1"⟩, ⟨"BBB", "u2"⟩]

/-- C6 witness: with a fault injected on row 0's url, the run still yields
2 outcomes: row 0 marked error with the detail, row 1 success with its
totals. -/
theorem claim_C6_witness :
    (run_orchestrator net0 m2 rows0).length = 2 ∧
    (run_orchestrator net0 m2 rows0)[0]? =
      some ⟨"AAA", "error", [], some "Error fetching from u1: boom"⟩ ∧
    (run_orchestrator net0 m2 rows0)[1]? =
      some ⟨"BBB", "success", initTotals m2, none⟩ := by
  have h := claim_C6_row_isolation net0 m2 rows0
  have h0 := h.2 0 ⟨"AAA", "u1"⟩ rfl
  have h1 := h.2 1 ⟨"BBB", "u2"⟩ rfl
  have h0e := h0.2.1 "Error fetching from u1: boom" rfl
  have h1d := h1.2.2 (initTotals m2) rfl
  exact ⟨h.1, by rw [h0.1]; exact congrArg some h0e,
    by rw [h1.1]; exact congrArg some h1d⟩

/-- C8: reshaping yields exactly one output row per outcome; a successful
outcome contributes one row with its symbol, status and its category-total
columns (no error column); an error outcome contributes one row with its
symbol, status and the error detail, the category columns left empty. -/
theorem claim_C8_writer_shape (results : List RowOutcome) :
    (result_data results).length = results.length ∧
    ∀ (i : Nat) (r : RowOutcome), results[i]? = some r →
      (result_data results)[i]? = some (makeOutRow r) ∧
      (r.status = "success" →
        makeOutRow r = ⟨r.symbol, r.status, r.data, none⟩) ∧
      (r.status ≠ "success" →
        makeOutRow r = ⟨r.symbol, r.status, [], some (r.error.getD "")⟩) := by
  refine ⟨List.length_map _ _, ?_⟩
  intro i r hr
  refine ⟨?_, ?_, ?_⟩
  · rw [result_data, List.getElem?_map, hr]
    rfl
  · intro hs
    rw [makeOutRow, if_pos hs]
  · intro hs
    rw [makeOutRow, if_neg hs]

/-- C8 witness: one success and one error outcome reshape into exactly the
two expected wide rows. -/
theorem claim_C8_witness :
    (result_data [⟨"AAA", "success", [("cat", 1)], none⟩,
      ⟨"BBB", "error", [], some "boom"⟩]).length = 2 ∧
    (result_data [⟨"AAA", "success", [("cat", 1)], none⟩,
      ⟨"BBB", "error", [], some "boom"⟩])[0]? =
      some ⟨"AAA", "success", [("cat", 1)], none⟩ ∧
    (result_data [⟨"AAA", "success", [("cat", 1)], none⟩,
      ⟨"BBB", "error", [], some "boom"⟩])[1]? =
      some ⟨"BBB", "error", [], some "boom"⟩ := by
  have h := claim_C8_writer_shape [⟨"AAA", "success", [("cat", 1)], none⟩,
    ⟨"BBB", "error", [], some "boom"⟩]
  have h0 := h.2 0 ⟨"AAA", "success", [("cat", 1)], none⟩ rfl
  have h1 := h.2 1 ⟨"BBB", "error", [], some "boom"⟩ rfl
  have h0s := h0.2.1 rfl
  have h1e := h1.2.2 (by decide)
  exact ⟨h.1, by rw [h0.1]; exact congrArg some h0s,
    by rw [h1.1]; exact congrArg some h1e⟩
